import Mathlib

/-!
Shallow embedding of the chat-history storage subsystem of the
health-copilot repository, together with theorems settling the frozen
claims about it.

Embedded source files:
* `src/ui/storage/ChatStorage.ts`  (classes `ChatStorage`, `ConfigManager`)
* `src/ui/components/chat/ChatTitleGenerator.tsx`
* `src/ui/types/chatHistory.ts`    (data model, `DEFAULT_CONFIG`)

Modelling conventions:
* JS `Date` values are modelled as `Nat` instants; the "current time" of an
  operation is an explicit parameter (`now`).
* AsyncStorage is modelled by a `Store` structure holding the chat-record
  portion of the key-value store (keyed by chat id; the constant key prefix
  `chat_sessions_` is an injective renaming and is dropped) as a function
  `String → Option RawRecord`, plus the parsed chat index stored under
  `chat_index`.
* A stored record is either a deserializable session (`RawRecord.valid`) or
  data on which `JSON.parse`/revival throws (`RawRecord.corrupt`); an absent
  key is `none`.  `getItem` returning `null` (or `""`, which the code treats
  the same via `if (!data)`) is the `none` case.
* Strings use Lean `String`; JS `substring`/`slice`/`toLowerCase`/`trim`
  are modelled by the corresponding character-level operations.
-/

namespace HealthCopilot

/-- `ChatMessage.role`, the TS union type `"user" | "assistant"`. -/
inductive Role where
  | user
  | assistant
deriving DecidableEq, Repr

/-- `ChatMessage` from `src/ui/types/chatHistory.ts` (the optional
`metadata` field is unused by the embedded operations and omitted). -/
structure ChatMessage where
  id : String
  role : Role
  text : String
  timestamp : Nat
deriving DecidableEq, Repr

/-- The `metadata` field of `ChatSession`. -/
structure ChatMetadata where
  messageCount : Nat
  lastMessagePreview : String
  tags : List String
deriving DecidableEq, Repr

/-- `ChatSession` from `src/ui/types/chatHistory.ts`. -/
structure ChatSession where
  id : String
  title : String
  createdAt : Nat
  updatedAt : Nat
  messages : List ChatMessage
  metadata : ChatMetadata
deriving DecidableEq, Repr

/-- `ChatConfig` from `src/ui/types/chatHistory.ts`. -/
structure ChatConfig where
  maxChatsInDrawer : Nat
  maxChatHistory : Nat
  searchDebounceMs : Nat
  autoSaveIntervalMs : Nat
  enableSearchIndexing : Bool
deriving DecidableEq, Repr

/-- `DEFAULT_CONFIG` from `src/ui/types/chatHistory.ts`. -/
def DEFAULT_CONFIG : ChatConfig :=
  { maxChatsInDrawer := 20
    maxChatHistory := 100
    searchDebounceMs := 300
    autoSaveIntervalMs := 5000
    enableSearchIndexing := true }

/-! JS string primitives, modelled at the character-list level so that
every definition evaluates by kernel reduction.  JS indexes by UTF-16
unit; the model indexes by character, which agrees on the code points the
embedded operations are applied to. -/

/-- JS `s.toLowerCase()`. -/
def jsToLower (s : String) : String :=
  ⟨s.data.map Char.toLower⟩

/-- JS `s.trim()`: strip leading and trailing whitespace. -/
def jsTrim (s : String) : String :=
  ⟨((s.data.dropWhile Char.isWhitespace).reverse.dropWhile
      Char.isWhitespace).reverse⟩

/-- JS `s.substring(0, n)` (also `s.slice(0, n)`): the first `n`
characters. -/
def jsTake (s : String) (n : Nat) : String :=
  ⟨s.data.take n⟩

/-- JS `s.substring(n)` (also `s.slice(n)`): drop the first `n`
characters. -/
def jsDrop (s : String) (n : Nat) : String :=
  ⟨s.data.drop n⟩

/-- What sits under a `chat_sessions_<id>` key: either data that
deserializes to a session, or data on which deserialization throws. -/
inductive RawRecord where
  | valid (s : ChatSession)
  | corrupt
deriving DecidableEq, Repr

/-- The state of AsyncStorage as seen by `ChatStorage`: the chat records
(keyed by chat id) and the parsed `chat_index` array. -/
structure Store where
  records : String → Option RawRecord
  index : List String

/-- The empty store: no records, empty index. -/
def Store.empty : Store :=
  { records := fun _ => none, index := [] }

/-- `storage.setItem` on a record key. -/
def Store.putRecord (st : Store) (k : String) (v : RawRecord) : Store :=
  { st with records := fun k' => if k' = k then some v else st.records k' }

/-- `ChatStorage.deleteChat`: removes the record stored under the id, and
rewrites the index with every occurrence of the id filtered out
(`src/ui/storage/ChatStorage.ts:213-229`). -/
def deleteChat (id : String) (st : Store) : Store :=
  { records := fun k' => if k' = id then none else st.records k'
    index := st.index.filter (fun chatId => chatId ≠ id) }

/-- The metadata/`updatedAt` refresh performed at the top of
`ChatStorage.saveChat` (`src/ui/storage/ChatStorage.ts:108-119`):
`updatedAt = new Date()`, `messageCount = chat.messages.length`,
`lastMessagePreview = chat.messages[len-1]?.text.substring(0,100) || ""`. -/
def updatedChat (now : Nat) (chat : ChatSession) : ChatSession :=
  { chat with
    updatedAt := now
    metadata :=
      { chat.metadata with
        messageCount := chat.messages.length
        lastMessagePreview :=
          match chat.messages.getLast? with
          | some m => jsTake m.text 100
          | none => "" } }

/-- The index-update block of `ChatStorage.saveChat`
(`src/ui/storage/ChatStorage.ts:128-138`): unshift the id if new;
`indexOf` the first occurrence and splice+unshift if present at position
> 0 (when the id is already at the front the array is left alone, which
equals `chat.id :: index.erase chat.id`). -/
def saveIndex2 (chat : ChatSession) (index : List String) : List String :=
  if chat.id ∈ index then chat.id :: index.erase chat.id
  else chat.id :: index

/-- `ChatStorage.saveChat` (`src/ui/storage/ChatStorage.ts:104-155`):
refresh metadata, write the record, pull the saved id to the index front,
evict the ids beyond `maxChatHistory` via `deleteChat`, and finally
persist the local index (overwriting the index writes the evictions
made). -/
def saveChat (cfg : ChatConfig) (now : Nat) (chat : ChatSession) (st : Store) : Store :=
  let updated := updatedChat now chat
  let st1 := st.putRecord chat.id (RawRecord.valid updated)
  let index2 := saveIndex2 chat st1.index
  let maxChats := cfg.maxChatHistory
  if maxChats < index2.length then
    let chatsToRemove := index2.drop maxChats
    let st2 := chatsToRemove.foldl (fun s chatId => deleteChat chatId s) st1
    { st2 with index := index2.take maxChats }
  else
    { st1 with index := index2 }

/-- `ChatStorage.getChat` (`src/ui/storage/ChatStorage.ts:180-211`): absent
data returns `null` with no side effect; a record that fails to
deserialize is deleted from storage and index (self-healing) and `null` is
returned; a valid record is returned unchanged. -/
def getChat (id : String) (st : Store) : Option ChatSession × Store :=
  match st.records id with
  | none => (none, st)
  | some (RawRecord.valid s) => (some s, st)
  | some RawRecord.corrupt => (none, deleteChat id st)

/-- The fetch loop of `ChatStorage.getChats`
(`src/ui/storage/ChatStorage.ts:165-171`): fetch each id in order, keep
the successful fetches, thread the store through the self-healing
side effects of `getChat`. -/
def getChatsLoop (ids : List String) (st : Store) : List ChatSession × Store :=
  match ids with
  | [] => ([], st)
  | id :: rest =>
    match getChat id st with
    | (some c, st') =>
      let (cs, st'') := getChatsLoop rest st'
      (c :: cs, st'')
    | (none, st') => getChatsLoop rest st'

/-- The limit actually used by `ChatStorage.getChats`
(`src/ui/storage/ChatStorage.ts:162`): `limit || configManager.maxChatsInDrawer`.
In JS both an omitted argument and `0` are falsy and select the default. -/
def limitToUse (cfg : ChatConfig) (limit : Option Nat) : Nat :=
  match limit with
  | some l => if l = 0 then cfg.maxChatsInDrawer else l
  | none => cfg.maxChatsInDrawer

/-- `ChatStorage.getChats` (`src/ui/storage/ChatStorage.ts:157-178`). -/
def getChats (cfg : ChatConfig) (limit : Option Nat) (st : Store) :
    List ChatSession × Store :=
  getChatsLoop (st.index.take (limitToUse cfg limit)) st

/-- JS `s.startsWith(p)` on character lists: `p` is a prefix of `s`. -/
def charsStartWith (s p : List Char) : Bool :=
  match p, s with
  | [], _ => true
  | _ :: _, [] => false
  | a :: ps, b :: ss => a = b && charsStartWith ss ps

/-- JS `hay.includes(needle)` on character lists: `needle` occurs
contiguously inside `hay` (the empty needle always matches). -/
def charsInclude (hay needle : List Char) : Bool :=
  match hay, needle with
  | _, [] => true
  | [], _ :: _ => false
  | _ :: t, _ :: _ => charsStartWith hay needle || charsInclude t needle

/-- JS `hay.includes(needle)` on strings. -/
def strIncludes (hay needle : String) : Bool :=
  charsInclude hay.toList needle.toList

/-- The per-chat match predicate of `ChatStorage.searchChats`
(`src/ui/storage/ChatStorage.ts:240-248`): case-insensitive substring
match on the title or on some message text. -/
def chatMatches (searchTerm : String) (chat : ChatSession) : Bool :=
  strIncludes (jsToLower chat.title) searchTerm ||
    chat.messages.any
      (fun message => strIncludes (jsToLower message.text) searchTerm)

/-- `ChatStorage.searchChats` (`src/ui/storage/ChatStorage.ts:231-253`):
blank query short-circuits to `[]`; otherwise fetch up to
`maxChatHistory` recent sessions and filter by `chatMatches` with the
lowercased (untrimmed) query. -/
def searchChats (cfg : ChatConfig) (query : String) (st : Store) :
    List ChatSession × Store :=
  if jsTrim query = "" then ([], st)
  else
    let fetched := getChats cfg (some cfg.maxChatHistory) st
    let searchTerm := jsToLower query
    (fetched.1.filter (chatMatches searchTerm), fetched.2)

/-- `ChatStorage.clearAllChats` (`src/ui/storage/ChatStorage.ts:255-273`):
remove every indexed record, then store an empty index. -/
def clearAllChats (st : Store) : Store :=
  let st1 := st.index.foldl
    (fun s chatId =>
      { s with records := fun k' => if k' = chatId then none else s.records k' })
    st
  { st1 with index := [] }

/-- One client-visible storage operation, with the external inputs each one
takes (the wall-clock instant of a save).  These are the mutating/reading
entry points of `ChatStorage`. -/
inductive Op where
  | save (now : Nat) (chat : ChatSession)
  | del (id : String)
  | get (id : String)
  | list (limit : Option Nat)
  | search (query : String)
  | clear
deriving Repr

/-- Apply one operation to the store, keeping only its storage effect. -/
def applyOp (cfg : ChatConfig) (st : Store) : Op → Store
  | Op.save now chat => saveChat cfg now chat st
  | Op.del id => deleteChat id st
  | Op.get id => (getChat id st).2
  | Op.list limit => (getChats cfg limit st).2
  | Op.search query => (searchChats cfg query st).2
  | Op.clear => clearAllChats st

/-- Run a sequence of operations from the empty store. -/
def runOps (cfg : ChatConfig) (ops : List Op) : Store :=
  ops.foldl (applyOp cfg) Store.empty

/-- Fold a list of timed saves over a store (`saveChat` applied in order). -/
def saveAll (cfg : ChatConfig) (saves : List (Nat × ChatSession)) (st : Store) :
    Store :=
  saves.foldl (fun s p => saveChat cfg p.1 p.2 s) st

/-- A store is well-keyed when the session of every valid record carries the id
it is stored under — the invariant `saveChat` maintains by writing
`updatedChat` (same `id`) under key `chat.id`. -/
def WellKeyed (st : Store) : Prop :=
  ∀ k s, st.records k = some (RawRecord.valid s) → s.id = k

/-! ### ConfigManager (`src/ui/storage/ChatStorage.ts:418-499`) -/

/-- TS `Partial<ChatConfig>`: every field optional. -/
structure PartialConfig where
  maxChatsInDrawer : Option Nat := none
  maxChatHistory : Option Nat := none
  searchDebounceMs : Option Nat := none
  autoSaveIntervalMs : Option Nat := none
  enableSearchIndexing : Option Bool := none
deriving DecidableEq, Repr

/-- The JS object spread `{ ...this.config, ...updates }`: fields present
in `updates` win. -/
def mergeConfig (c : ChatConfig) (u : PartialConfig) : ChatConfig :=
  { maxChatsInDrawer := u.maxChatsInDrawer.getD c.maxChatsInDrawer
    maxChatHistory := u.maxChatHistory.getD c.maxChatHistory
    searchDebounceMs := u.searchDebounceMs.getD c.searchDebounceMs
    autoSaveIntervalMs := u.autoSaveIntervalMs.getD c.autoSaveIntervalMs
    enableSearchIndexing := u.enableSearchIndexing.getD c.enableSearchIndexing }

/-- The state of `ConfigManager`: the in-memory config and the value under
the `chat_config` persistence key. -/
structure ConfigState where
  mem : ChatConfig
  disk : Option ChatConfig
deriving DecidableEq, Repr

/-- `ConfigManager.getConfig` (`src/ui/storage/ChatStorage.ts:451-453`):
returns (a copy of) the in-memory config. -/
def getConfig (s : ConfigState) : ChatConfig :=
  s.mem

/-- `ConfigManager.updateConfig` (`src/ui/storage/ChatStorage.ts:455-464`):
the in-memory config is merged FIRST, unconditionally; then the write is
attempted.  `writeOk` models whether `AsyncStorage.setItem` succeeds; the
returned Bool is `true` on success and `false` when the method throws
`Error("Failed to save configuration")`. -/
def updateConfig (u : PartialConfig) (writeOk : Bool) (s : ConfigState) :
    ConfigState × Bool :=
  let mem' := mergeConfig s.mem u
  if writeOk then ({ mem := mem', disk := some mem' }, true)
  else ({ mem := mem', disk := s.disk }, false)

/-! ### ChatTitleGenerator (`src/ui/components/chat/ChatTitleGenerator.tsx`) -/

/-- `MAX_TITLE_LENGTH`. -/
def MAX_TITLE_LENGTH : Nat := 50

/-- `MIN_TITLE_LENGTH`. -/
def MIN_TITLE_LENGTH : Nat := 10

/-- The fixed list of conversational prefixes stripped by `cleanTitle`
(`src/ui/components/chat/ChatTitleGenerator.tsx:41-58`), in source order. -/
def titlePrefixes : List String :=
  ["can you", "could you", "please", "help me", "i need", "i want",
   "how do i", "what is", "what are", "where is", "when is", "why is",
   "tell me", "explain", "show me", "give me"]

/-- The prefix-stripping loop of `cleanTitle`: the first listed prefix that
matches (followed by a space) is removed together with the space, then the
loop breaks. -/
def stripOneTitlePre (s : String) : String :=
  match titlePrefixes.find? (fun p => charsStartWith s.data (p ++ " ").data) with
  | some p => jsDrop s (p.length + 1)
  | none => s

/-- JS `s.charAt(0).toUpperCase() + s.slice(1)` (identity on `""`). -/
def capitalizeFirst (s : String) : String :=
  match s.toList with
  | [] => ""
  | c :: rest => String.mk (c.toUpper :: rest)

/-- JS `s.replace(/[.!?]+$/, "")`: remove the maximal trailing run of
`.`, `!`, `?`. -/
def stripTrailingPunct (s : String) : String :=
  String.mk ((s.toList.reverse.dropWhile
    (fun c => c = '.' || c = '!' || c = '?')).reverse)

/-- `ChatTitleGenerator.cleanTitle`
(`src/ui/components/chat/ChatTitleGenerator.tsx:39-76`): lowercase, strip
at most one conversational prefix, capitalize the first letter, strip
trailing punctuation. -/
def cleanTitle (title : String) : String :=
  stripTrailingPunct (capitalizeFirst (stripOneTitlePre (jsToLower title)))

/-- JS `s.lastIndexOf(" ")` as an `Option Nat` (`none` for `-1`). -/
def lastSpaceIdx (s : String) : Option Nat :=
  match s.toList.reverse.findIdx? (fun c => c = ' ') with
  | some j => some (s.length - 1 - j)
  | none => none

/-- The truncation step of `generateTitle`
(`src/ui/components/chat/ChatTitleGenerator.tsx:21-29`): over 50
characters, cut to 50, trim, back up to the last space when it lies beyond
position 10, and append `"..."`. -/
def truncateTitle (title : String) : String :=
  if MAX_TITLE_LENGTH < title.length then
    let t := jsTrim (jsTake title MAX_TITLE_LENGTH)
    let t2 :=
      match lastSpaceIdx t with
      | some lastSpace => if MIN_TITLE_LENGTH < lastSpace then jsTake t lastSpace else t
      | none => t
    t2 ++ "..."
  else title

/-- `ChatTitleGenerator.generateFallbackTitle`
(`src/ui/components/chat/ChatTitleGenerator.tsx:78-95`).  `timeStr` is the
formatted current time (`new Date().toLocaleTimeString(...)`), an input
the function reads from the environment, not from `messages`. -/
def generateFallbackTitle (messages : List ChatMessage) (timeStr : String) :
    String :=
  let messageCount := messages.length
  if messageCount ≤ 1 then "Chat at " ++ timeStr
  else if messageCount ≤ 5 then
    "Quick Chat (" ++ toString messageCount ++ " messages)"
  else "Chat Session (" ++ toString messageCount ++ " messages)"

/-- `ChatTitleGenerator.generateTitle`
(`src/ui/components/chat/ChatTitleGenerator.tsx:7-37`).  `timeStr` is the
formatted current wall-clock time consumed by the fallback path. -/
def generateTitle (messages : List ChatMessage) (timeStr : String) : String :=
  match messages.find? (fun msg => decide (msg.role = Role.user)) with
  | none => "New Chat"
  | some firstUserMessage =>
    let title0 := jsTrim firstUserMessage.text
    let title1 := cleanTitle title0
    let title2 := truncateTitle title1
    let title3 :=
      if title2.length < MIN_TITLE_LENGTH then generateFallbackTitle messages timeStr
      else title2
    if title3 = "" then "New Chat" else title3

/-! ## Helper lemmas -/

theorem getChat_of_absent {id : String} {st : Store}
    (h : st.records id = none) : getChat id st = (none, st) := by
  simp [getChat, h]

theorem getChat_of_valid {id : String} {st : Store} {s : ChatSession}
    (h : st.records id = some (RawRecord.valid s)) :
    getChat id st = (some s, st) := by
  simp [getChat, h]

theorem getChat_of_corrupt {id : String} {st : Store}
    (h : st.records id = some RawRecord.corrupt) :
    getChat id st = (none, deleteChat id st) := by
  simp [getChat, h]

/-- A successful `getChat` leaves the store untouched and certifies that
the queried record is present and valid. -/
theorem getChat_found {id : String} {st : Store} {s : ChatSession}
    (h : (getChat id st).1 = some s) :
    st.records id = some (RawRecord.valid s) ∧ (getChat id st).2 = st := by
  cases hrec : st.records id with
  | none => rw [getChat_of_absent hrec] at h; exact absurd h (by simp)
  | some r =>
    cases r with
    | valid s' =>
      rw [getChat_of_valid hrec] at h
      simp only [Option.some.injEq] at h
      subst h
      exact ⟨rfl, by rw [getChat_of_valid hrec]⟩
    | corrupt =>
      rw [getChat_of_corrupt hrec] at h
      exact absurd h (by simp)

/-- `getChat` never adds or modifies records: each key is either untouched
or deleted. -/
theorem getChat_records_shrink (id : String) (st : Store) (k : String) :
    (getChat id st).2.records k = st.records k ∨
      (getChat id st).2.records k = none := by
  unfold getChat
  cases hrec : st.records id with
  | none => left; rfl
  | some r =>
    cases r with
    | valid s => left; rfl
    | corrupt =>
      by_cases hk : k = id
      · right; simp [deleteChat, hk]
      · left; simp [deleteChat, hk]

/-- Contrapositive form of shrinking: a record present after `getChat` was
present before, with the same contents. -/
theorem getChat_records_some {id : String} {st : Store} {k : String}
    {v : RawRecord} (h : (getChat id st).2.records k = some v) :
    st.records k = some v := by
  rcases getChat_records_shrink id st k with heq | hnone
  · rw [← heq]; exact h
  · rw [hnone] at h; exact absurd h (by simp)

/-- The index after `getChat` is the old index or a filtering of it. -/
theorem getChat_index (id : String) (st : Store) :
    (getChat id st).2.index = st.index ∨
      (getChat id st).2.index = st.index.filter (fun chatId => chatId ≠ id) := by
  unfold getChat
  cases hrec : st.records id with
  | none => left; rfl
  | some r =>
    cases r with
    | valid s => left; rfl
    | corrupt => right; rfl

theorem deleteChat_wellKeyed {st : Store} (h : WellKeyed st) (id : String) :
    WellKeyed (deleteChat id st) := by
  intro k s hk
  apply h
  simp only [deleteChat] at hk
  by_cases hki : k = id
  · simp [hki] at hk
  · simpa [hki] using hk

theorem getChat_wellKeyed {st : Store} (h : WellKeyed st) (id : String) :
    WellKeyed (getChat id st).2 := by
  unfold getChat
  cases hrec : st.records id with
  | none => exact h
  | some r =>
    cases r with
    | valid s => exact h
    | corrupt => exact deleteChat_wellKeyed h id

theorem getChat_nodup {st : Store} (h : st.index.Nodup) (id : String) :
    (getChat id st).2.index.Nodup := by
  rcases getChat_index id st with heq | heq <;> rw [heq]
  · exact h
  · exact h.filter _

/-- The fetch loop returns at most one session per requested id. -/
theorem getChatsLoop_length_le (ids : List String) (st : Store) :
    (getChatsLoop ids st).1.length ≤ ids.length := by
  induction ids generalizing st with
  | nil => simp [getChatsLoop]
  | cons id rest ih =>
    unfold getChatsLoop
    cases hg : getChat id st with
    | mk r st' =>
      cases r with
      | some c => simpa using Nat.succ_le_succ (ih st')
      | none => exact Nat.le_succ_of_le (ih st')

/-- Soundness of the fetch loop: on a well-keyed store every returned
session was requested by its own id and was stored as a valid record. -/
theorem getChatsLoop_sound {ids : List String} {st : Store} {s : ChatSession}
    (hwk : WellKeyed st) (h : s ∈ (getChatsLoop ids st).1) :
    s.id ∈ ids ∧ st.records s.id = some (RawRecord.valid s) := by
  induction ids generalizing st with
  | nil => simp [getChatsLoop] at h
  | cons id rest ih =>
    unfold getChatsLoop at h
    cases hg : getChat id st with
    | mk r st' =>
      cases r with
      | some c =>
        have hfound := getChat_found (by rw [hg])
        have hst' : st' = st := by
          have := hfound.2; rw [hg] at this; exact this
        rw [hg] at h
        simp only at h
        rcases List.mem_cons.mp h with hc | hrest
        · subst hc
          have hid : s.id = id := hwk id s hfound.1
          rw [hid]
          exact ⟨List.mem_cons_self _ _, hfound.1⟩
        · have := @ih st hwk (by rw [hst'] at hrest; exact hrest)
          exact ⟨List.mem_cons_of_mem _ this.1, this.2⟩
      | none =>
        rw [hg] at h
        have hwk' : WellKeyed st' := by
          have := getChat_wellKeyed hwk id; rw [hg] at this; exact this
        have := @ih st' hwk' h
        refine ⟨List.mem_cons_of_mem _ this.1, ?_⟩
        apply @getChat_records_some id st
        rw [hg]; exact this.2

/-- On a well-keyed store the returned ids form a subsequence of the
requested ids (fetch order is preserved, failures are skipped). -/
theorem getChatsLoop_ids_sublist {ids : List String} {st : Store}
    (hwk : WellKeyed st) :
    ((getChatsLoop ids st).1.map ChatSession.id).Sublist ids := by
  induction ids generalizing st with
  | nil => simp [getChatsLoop]
  | cons id rest ih =>
    unfold getChatsLoop
    cases hg : getChat id st with
    | mk r st' =>
      cases r with
      | some c =>
        have hfound := getChat_found (by rw [hg])
        have hst' : st' = st := by
          have := hfound.2; rw [hg] at this; exact this
        have hid : c.id = id := hwk id c hfound.1
        simp only [List.map_cons]
        rw [hid]
        exact (@ih st' (hst' ▸ hwk)).cons₂ id
      | none =>
        have hwk' : WellKeyed st' := by
          have := getChat_wellKeyed hwk id; rw [hg] at this; exact this
        exact (@ih st' hwk').cons id

theorem getChatsLoop_nodup {ids : List String} {st : Store}
    (h : st.index.Nodup) : (getChatsLoop ids st).2.index.Nodup := by
  induction ids generalizing st with
  | nil => simpa [getChatsLoop]
  | cons id rest ih =>
    unfold getChatsLoop
    cases hg : getChat id st with
    | mk r st' =>
      have hst' : st'.index.Nodup := by
        have := getChat_nodup h id; rw [hg] at this; exact this
      cases r with
      | some c => simpa using @ih st' hst'
      | none => exact @ih st' hst'

/-- Effect on records of the eviction loop `for (const chatId of
chatsToRemove) await this.deleteChat(chatId)`. -/
theorem foldl_deleteChat_records (l : List String) (st : Store) (k : String) :
    (l.foldl (fun s chatId => deleteChat chatId s) st).records k =
      if k ∈ l then none else st.records k := by
  induction l generalizing st with
  | nil => simp
  | cons c rest ih =>
    simp only [List.foldl_cons]
    rw [ih]
    by_cases hk : k ∈ rest
    · simp [hk]
    · by_cases hkc : k = c
      · simp [hk, hkc, deleteChat]
      · simp [hk, hkc, deleteChat, List.mem_cons]

/-- Both branches of the index update produce front-insertion with the
old occurrence erased (`erase` is the identity when the id is absent). -/
theorem saveIndex2_eq (chat : ChatSession) (index : List String) :
    saveIndex2 chat index = chat.id :: index.erase chat.id := by
  unfold saveIndex2
  by_cases hmem : chat.id ∈ index
  · simp [hmem]
  · simp [hmem, List.erase_of_not_mem hmem]

/-- The index written by `saveChat`: the saved id pulled to the front, cut
to `maxChatHistory` entries.  (When no eviction fires the `take` is the
identity.) -/
theorem saveChat_index (cfg : ChatConfig) (now : Nat) (chat : ChatSession)
    (st : Store) :
    (saveChat cfg now chat st).index =
      (chat.id :: st.index.erase chat.id).take cfg.maxChatHistory := by
  by_cases hlen : cfg.maxChatHistory < (st.index.erase chat.id).length + 1
  · simp [saveChat, Store.putRecord, saveIndex2_eq, hlen]
  · simp only [saveChat, Store.putRecord, saveIndex2_eq, List.length_cons,
      hlen, if_neg, not_false_iff]
    exact (List.take_of_length_le (by simpa using Nat.le_of_not_lt hlen)).symm

/-- The records after `saveChat`: evicted ids are gone, the saved id holds
the refreshed session (unless itself evicted), everything else is
untouched. -/
theorem saveChat_records (cfg : ChatConfig) (now : Nat) (chat : ChatSession)
    (st : Store) (k : String) :
    (saveChat cfg now chat st).records k =
      if k ∈ (chat.id :: st.index.erase chat.id).drop cfg.maxChatHistory then
        none
      else if k = chat.id then some (RawRecord.valid (updatedChat now chat))
      else st.records k := by
  by_cases hlen : cfg.maxChatHistory < (st.index.erase chat.id).length + 1
  · simp only [saveChat, Store.putRecord, saveIndex2_eq, List.length_cons,
      hlen, if_true, ite_true]
    rw [foldl_deleteChat_records]
  · have hnil : (chat.id :: st.index.erase chat.id).drop cfg.maxChatHistory = [] :=
      List.drop_eq_nil_of_le (by simpa using Nat.le_of_not_lt hlen)
    simp [saveChat, Store.putRecord, saveIndex2_eq, hlen, hnil]

theorem saveChat_nodup {st : Store} (h : st.index.Nodup) (cfg : ChatConfig)
    (now : Nat) (chat : ChatSession) :
    (saveChat cfg now chat st).index.Nodup := by
  rw [saveChat_index]
  apply (List.take_sublist _ _).nodup
  exact List.nodup_cons.mpr ⟨h.not_mem_erase, h.erase chat.id⟩

theorem clearAllChats_index (st : Store) : (clearAllChats st).index = [] := by
  unfold clearAllChats
  generalize st.index = l
  induction l generalizing st with
  | nil => rfl
  | cons c rest ih => exact ih _

/-- Every storage operation preserves index uniqueness. -/
theorem applyOp_nodup {st : Store} (h : st.index.Nodup) (cfg : ChatConfig)
    (op : Op) : (applyOp cfg st op).index.Nodup := by
  cases op with
  | save now chat => exact saveChat_nodup h cfg now chat
  | del id => exact h.filter _
  | get id => exact getChat_nodup h id
  | list limit => exact getChatsLoop_nodup h
  | search query =>
    simp only [applyOp, searchChats]
    by_cases hq : jsTrim query = ""
    · simpa [hq]
    · simpa [hq] using @getChatsLoop_nodup (st.index.take
        (limitToUse cfg (some cfg.maxChatHistory))) st h
  | clear => rw [applyOp, clearAllChats_index]; exact List.nodup_nil

/-- Index uniqueness holds in every state reachable from the empty store. -/
theorem runOps_nodup (cfg : ChatConfig) (ops : List Op) :
    (runOps cfg ops).index.Nodup := by
  suffices h : ∀ (st : Store), st.index.Nodup →
      (ops.foldl (applyOp cfg) st).index.Nodup by
    exact h Store.empty List.nodup_nil
  induction ops with
  | nil => intro st hst; simpa
  | cons op rest ih =>
    intro st hst
    exact ih (applyOp cfg st op) (applyOp_nodup hst cfg op)

/-- Saving a chat whose id is not yet indexed, with room to spare, simply
conses the id onto the index and writes the record. -/
theorem saveChat_fresh (cfg : ChatConfig) (now : Nat) (chat : ChatSession)
    (st : Store) (hmem : chat.id ∉ st.index)
    (hlen : st.index.length < cfg.maxChatHistory) :
    (saveChat cfg now chat st).index = chat.id :: st.index
    ∧ ∀ k, (saveChat cfg now chat st).records k =
        if k = chat.id then some (RawRecord.valid (updatedChat now chat))
        else st.records k := by
  constructor
  · rw [saveChat_index, List.erase_of_not_mem hmem]
    exact List.take_of_length_le (by simpa using hlen)
  · intro k
    rw [saveChat_records, List.erase_of_not_mem hmem]
    have hnil : (chat.id :: st.index).drop cfg.maxChatHistory = [] :=
      List.drop_eq_nil_of_le (by simpa using hlen)
    simp [hnil]

/-- Saving a sequence of distinct, fresh sessions that fits under the cap
builds the index most-recently-saved-first and stores every record. -/
theorem saveAll_fresh (cfg : ChatConfig) (saves : List (Nat × ChatSession)) :
    ∀ (st : Store),
      (saves.map (fun p => p.2.id)).Nodup →
      (∀ p ∈ saves, p.2.id ∉ st.index) →
      st.index.length + saves.length ≤ cfg.maxChatHistory →
      (saveAll cfg saves st).index
          = (saves.map (fun p => p.2.id)).reverse ++ st.index
        ∧ (∀ p ∈ saves, (saveAll cfg saves st).records p.2.id
            = some (RawRecord.valid (updatedChat p.1 p.2)))
        ∧ (∀ k, (∀ p ∈ saves, p.2.id ≠ k) →
            (saveAll cfg saves st).records k = st.records k) := by
  induction saves with
  | nil => intro st _ _ _; simp [saveAll]
  | cons p rest ih =>
    intro st hnd hfresh hlen
    obtain ⟨t, c⟩ := p
    have hmem : c.id ∉ st.index := hfresh (t, c) (List.mem_cons_self _ _)
    have hlt : st.index.length < cfg.maxChatHistory := by
      simp only [List.length_cons] at hlen; omega
    have hstep := saveChat_fresh cfg t c st hmem hlt
    have hani : saveAll cfg ((t, c) :: rest) st
        = saveAll cfg rest (saveChat cfg t c st) := by
      simp [saveAll]
    rw [List.map_cons] at hnd
    have hcid : c.id ∉ rest.map (fun p => p.2.id) := (List.nodup_cons.mp hnd).1
    have hnd' : (rest.map (fun p => p.2.id)).Nodup := (List.nodup_cons.mp hnd).2
    have hfresh' : ∀ q ∈ rest, q.2.id ∉ (saveChat cfg t c st).index := by
      intro q hq
      rw [hstep.1]
      simp only [List.mem_cons, not_or]
      constructor
      · intro heq; exact hcid (heq ▸ List.mem_map_of_mem _ hq)
      · exact hfresh q (List.mem_cons_of_mem _ hq)
    have hlen' : (saveChat cfg t c st).index.length + rest.length
        ≤ cfg.maxChatHistory := by
      rw [hstep.1]
      simp only [List.length_cons] at hlen ⊢
      omega
    have IH := ih (saveChat cfg t c st) hnd' hfresh' hlen'
    refine ⟨?_, ?_, ?_⟩
    · rw [hani, IH.1, hstep.1]
      simp
    · intro q hq
      rcases List.mem_cons.mp hq with hqc | hqrest
      · subst hqc
        rw [hani,
          IH.2.2 c.id (fun r hr heq => hcid (heq ▸ List.mem_map_of_mem _ hr)),
          hstep.2 c.id]
        simp
      · rw [hani]; exact IH.2.1 q hqrest
    · intro k hk
      rw [hani, IH.2.2 k (fun q hq => hk q (List.mem_cons_of_mem _ hq)),
        hstep.2 k]
      have hkc : ¬ k = c.id := fun h => hk (t, c) (List.mem_cons_self _ _) h.symm
      simp [hkc]

/-- Splitting the last save off a save sequence. -/
theorem saveAll_append_single (cfg : ChatConfig) (l : List (Nat × ChatSession))
    (p : Nat × ChatSession) (st : Store) :
    saveAll cfg (l ++ [p]) st = saveChat cfg p.1 p.2 (saveAll cfg l st) := by
  simp [saveAll, List.foldl_append]

/-! ## Concrete fixtures used by witnesses and counterexamples -/

/-- A concrete chat session used by witnesses. -/
def sessionA : ChatSession :=
  { id := "a"
    title := "Sleep advice"
    createdAt := 0
    updatedAt := 0
    messages := [⟨"m1", Role.user, "how was my sleep this week", 1⟩]
    metadata := ⟨0, "", []⟩ }

/-- A second concrete chat session used by witnesses. -/
def sessionB : ChatSession :=
  { id := "b"
    title := "Running plan"
    createdAt := 0
    updatedAt := 0
    messages := [⟨"m2", Role.user, "build me a running plan", 2⟩]
    metadata := ⟨0, "", []⟩ }

/-- A store whose index holds an id with no record behind it. -/
def danglingStore : Store :=
  { records := fun _ => none, index := ["a"] }

/-- A store holding one corrupt record under an indexed id. -/
def corruptStore : Store :=
  { records := fun k => if k = "x" then some RawRecord.corrupt else none
    index := ["x", "y"] }

/-- A store holding one valid record under an indexed id. -/
def oneChatStore : Store :=
  { records := fun k => if k = "a" then some (RawRecord.valid sessionA) else none
    index := ["a"] }

/-! ## Claims -/

/-- C1, as stated, is false: with an id in the index whose record is
simply absent, `getChat` returns absent AND leaves the id in the index —
a permanently dangling reference.  (`getChat` deletes only when
deserialization throws; `if (!data) return null` at
`src/ui/storage/ChatStorage.ts:185` takes the absent path with no side
effect.) -/
theorem c1_dangling_counterexample :
    "a" ∈ danglingStore.index ∧ (getChat ("a") danglingStore).1 = none
      ∧ "a" ∈ (getChat ("a") danglingStore).2.index := by
  refine ⟨List.mem_cons_self _ _, rfl, List.mem_cons_self _ _⟩

/-- C1 (amended): for every id in the index whose record is PRESENT
(valid or corrupt), `getChat(id)` either returns a session or removes the
id from the index as a side effect of that same call; when the record is
absent, `getChat` returns absent and leaves the store (hence the index
entry) unchanged. -/
theorem c1_no_dangling_when_present :
    (∀ (st : Store) (id : String), id ∈ st.index → (st.records id).isSome →
      (∃ s, (getChat id st).1 = some s) ∨ id ∉ (getChat id st).2.index)
    ∧ ∀ (st : Store) (id : String), st.records id = none →
        getChat id st = (none, st) := by
  constructor
  · intro st id _ hsome
    cases hrec : st.records id with
    | none => rw [hrec] at hsome; simp at hsome
    | some r =>
      cases r with
      | valid s => exact Or.inl ⟨s, by rw [getChat_of_valid hrec]⟩
      | corrupt =>
        right
        rw [getChat_of_corrupt hrec]
        simp [deleteChat]
  · intro st id h
    exact getChat_of_absent h

/-- Witness for C1 (amended) at the concrete corrupt store. -/
theorem c1_no_dangling_when_present_witness :
    (∃ s, (getChat ("x") corruptStore).1 = some s) ∨
      "x" ∉ (getChat ("x") corruptStore).2.index :=
  c1_no_dangling_when_present.1 corruptStore ("x") (by decide) (by decide)

/-- C10: reading a merely-missing record is side-effect free — `getChat`
returns absent and the store (records and index alike) is unchanged; and
conversely the store changes only when the stored record is corrupt (the
deserialization-throw path). -/
theorem c10_absent_read_frame :
    (∀ (id : String) (st : Store), st.records id = none →
      getChat id st = (none, st))
    ∧ ∀ (id : String) (st : Store), (getChat id st).2 ≠ st →
        st.records id = some RawRecord.corrupt := by
  constructor
  · intro id st h
    exact getChat_of_absent h
  · intro id st hne
    cases hrec : st.records id with
    | none => exact absurd (by rw [getChat_of_absent hrec]) hne
    | some r =>
      cases r with
      | valid s => exact absurd (by rw [getChat_of_valid hrec]) hne
      | corrupt => rfl

/-- Witness for C10 at a concrete store: "b" has no record in
`oneChatStore`, and reading it changes nothing. -/
theorem c10_absent_read_frame_witness :
    getChat ("b") oneChatStore = (none, oneChatStore) :=
  c10_absent_read_frame.1 ("b") oneChatStore (by decide)

/-- C5: a corrupt record is self-healed by `getChat`: the call returns
absent, the record is deleted, the id leaves the index, and no session
with that id appears in a subsequent `getChats`. -/
theorem c5_corrupt_self_heal :
    ∀ (id : String) (st : Store) (cfg : ChatConfig) (limit : Option Nat),
      st.records id = some RawRecord.corrupt → WellKeyed st →
      (getChat id st).1 = none
      ∧ (getChat id st).2.records id = none
      ∧ id ∉ (getChat id st).2.index
      ∧ ∀ s ∈ (getChats cfg limit (getChat id st).2).1, s.id ≠ id := by
  intro id st cfg limit hrec hwk
  rw [getChat_of_corrupt hrec]
  refine ⟨rfl, by simp [deleteChat], by simp [deleteChat], ?_⟩
  intro s hs heq
  have hwk' : WellKeyed (deleteChat id st) := deleteChat_wellKeyed hwk id
  simp only [getChats] at hs
  have hsound := getChatsLoop_sound hwk' hs
  have h2 := hsound.2
  rw [heq] at h2
  simp [deleteChat] at h2

/-- Witness for C5: healing the concrete corrupt store. -/
theorem c5_corrupt_self_heal_witness :
    (getChat ("x") corruptStore).1 = none
    ∧ (getChat ("x") corruptStore).2.records ("x") = none
    ∧ "x" ∉ (getChat ("x") corruptStore).2.index
    ∧ ∀ s ∈ (getChats DEFAULT_CONFIG none (getChat ("x") corruptStore).2).1,
        s.id ≠ "x" :=
  c5_corrupt_self_heal ("x") corruptStore DEFAULT_CONFIG none rfl
    (by
      intro k s h
      simp only [corruptStore] at h
      by_cases hk : k = "x" <;> simp [hk] at h)

/-- C2: after `saveChat`, the record stored under the id of the session has
`metadata.messageCount` equal to the number of messages,
`metadata.lastMessagePreview` equal to the first 100 characters of the
text of the last message (the empty string when there are no messages), and
`updatedAt` stamped with the save time.  The index-uniqueness invariant
(maintained from the empty store, see the C3 theorem) and a positive
history cap guarantee the fresh record is not itself evicted. -/
theorem c2_save_metadata_postcondition :
    ∀ (cfg : ChatConfig) (now : Nat) (chat : ChatSession) (st : Store),
      st.index.Nodup → 1 ≤ cfg.maxChatHistory →
      ∃ u, (saveChat cfg now chat st).records chat.id
            = some (RawRecord.valid u)
        ∧ u.metadata.messageCount = chat.messages.length
        ∧ (∀ m, chat.messages.getLast? = some m →
            u.metadata.lastMessagePreview = jsTake m.text 100)
        ∧ (chat.messages = [] → u.metadata.lastMessagePreview = "")
        ∧ u.updatedAt = now := by
  intro cfg now chat st hnd hmax
  refine ⟨updatedChat now chat, ?_, rfl, ?_, ?_, rfl⟩
  · rw [saveChat_records]
    have hnotin :
        chat.id ∉ (chat.id :: st.index.erase chat.id).drop cfg.maxChatHistory := by
      intro hmem
      obtain ⟨m, hm⟩ : ∃ m, cfg.maxChatHistory = m + 1 :=
        ⟨cfg.maxChatHistory - 1, by omega⟩
      rw [hm, List.drop_succ_cons] at hmem
      exact hnd.not_mem_erase (List.drop_subset _ _ hmem)
    simp [hnotin]
  · intro m hm
    simp [updatedChat, hm]
  · intro hnil
    simp [updatedChat, hnil]

/-- Witness for C2: saving `sessionA` into the empty store under the
default config. -/
theorem c2_save_metadata_postcondition_witness :
    ∃ u, (saveChat DEFAULT_CONFIG 7 sessionA Store.empty).records sessionA.id
          = some (RawRecord.valid u)
      ∧ u.metadata.messageCount = sessionA.messages.length
      ∧ (∀ m, sessionA.messages.getLast? = some m →
          u.metadata.lastMessagePreview = jsTake m.text 100)
      ∧ (sessionA.messages = [] → u.metadata.lastMessagePreview = "")
      ∧ u.updatedAt = 7 :=
  c2_save_metadata_postcondition DEFAULT_CONFIG 7 sessionA Store.empty
    (by decide) (by decide)

/-- C3: saving A then B then A again leaves the index `[A.id, B.id]` and
`getChats()` returns A (refreshed by its latest save) first, then B —
re-saving moves to the front instead of duplicating; and after any
sequence of operations from the empty store the index holds each id at
most once. -/
theorem c3_move_to_front_and_unique :
    (∀ (cfg : ChatConfig) (t1 t2 t3 : Nat) (A B : ChatSession),
      A.id ≠ B.id → 2 ≤ cfg.maxChatHistory → 2 ≤ cfg.maxChatsInDrawer →
      (saveChat cfg t3 A (saveChat cfg t2 B (saveChat cfg t1 A Store.empty))).index
          = [A.id, B.id]
      ∧ (getChats cfg none
            (saveChat cfg t3 A (saveChat cfg t2 B (saveChat cfg t1 A Store.empty)))).1
          = [updatedChat t3 A, updatedChat t2 B])
    ∧ ∀ (cfg : ChatConfig) (ops : List Op), (runOps cfg ops).index.Nodup := by
  constructor
  · intro cfg t1 t2 t3 A B hAB hmax hdrawer
    have hBA : B.id ≠ A.id := fun h => hAB h.symm
    have h0lt : (0 : Nat) < cfg.maxChatHistory := by omega
    have h1lt : (1 : Nat) < cfg.maxChatHistory := by omega
    have s1 := saveChat_fresh cfg t1 A Store.empty
      (List.not_mem_nil _) h0lt
    have hidx1 : (saveChat cfg t1 A Store.empty).index = [A.id] := s1.1
    have s2 := saveChat_fresh cfg t2 B (saveChat cfg t1 A Store.empty)
      (by rw [hidx1]; intro h; exact hBA (List.mem_singleton.mp h))
      (by rw [hidx1]; exact h1lt)
    have hidx2 : (saveChat cfg t2 B (saveChat cfg t1 A Store.empty)).index
        = [B.id, A.id] := by rw [s2.1, hidx1]
    have herase : ([B.id, A.id] : List String).erase A.id = [B.id] := by
      simp [List.erase_cons, hBA]
    have hidx3 : (saveChat cfg t3 A
        (saveChat cfg t2 B (saveChat cfg t1 A Store.empty))).index
        = [A.id, B.id] := by
      rw [saveChat_index, hidx2, herase]
      exact List.take_of_length_le hmax
    have hrec3 : ∀ k, (saveChat cfg t3 A
        (saveChat cfg t2 B (saveChat cfg t1 A Store.empty))).records k
        = if k = A.id then some (RawRecord.valid (updatedChat t3 A))
          else (saveChat cfg t2 B (saveChat cfg t1 A Store.empty)).records k := by
      intro k
      rw [saveChat_records, hidx2, herase]
      have hnil : ([A.id, B.id] : List String).drop cfg.maxChatHistory = [] :=
        List.drop_eq_nil_of_le hmax
      rw [hnil]
      simp
    have hA3 : (saveChat cfg t3 A
        (saveChat cfg t2 B (saveChat cfg t1 A Store.empty))).records A.id
        = some (RawRecord.valid (updatedChat t3 A)) := by
      rw [hrec3]; simp
    have hB3 : (saveChat cfg t3 A
        (saveChat cfg t2 B (saveChat cfg t1 A Store.empty))).records B.id
        = some (RawRecord.valid (updatedChat t2 B)) := by
      rw [hrec3, if_neg hBA, s2.2 B.id]
      simp
    refine ⟨hidx3, ?_⟩
    show (getChatsLoop _ _).1 = _
    rw [hidx3]
    have htake : ([A.id, B.id] : List String).take (limitToUse cfg none)
        = [A.id, B.id] :=
      List.take_of_length_le hdrawer
    rw [htake]
    simp [getChatsLoop, getChat_of_valid hA3, getChat_of_valid hB3]
  · exact runOps_nodup

/-- Witness for C3 at concrete sessions and the default config. -/
theorem c3_move_to_front_and_unique_witness :
    (saveChat DEFAULT_CONFIG 3 sessionA
        (saveChat DEFAULT_CONFIG 2 sessionB
          (saveChat DEFAULT_CONFIG 1 sessionA Store.empty))).index
      = [sessionA.id, sessionB.id]
    ∧ (getChats DEFAULT_CONFIG none
          (saveChat DEFAULT_CONFIG 3 sessionA
            (saveChat DEFAULT_CONFIG 2 sessionB
              (saveChat DEFAULT_CONFIG 1 sessionA Store.empty)))).1
      = [updatedChat 3 sessionA, updatedChat 2 sessionB] :=
  c3_move_to_front_and_unique.1 DEFAULT_CONFIG 1 2 3 sessionA sessionB
    (by decide) (by decide) (by decide)

/-- C4: from the empty store, saving `maxChatHistory + 1` sessions with
distinct ids leaves an index of exactly `maxChatHistory` entries, every
indexed id retrievable, every later-saved id still indexed — while the
first-saved (least-recently-saved) session has both its record and its
index entry removed and `getChat` on it returns absent. -/
theorem c4_eviction_at_cap :
    ∀ (cfg : ChatConfig) (t0 : Nat) (c0 : ChatSession)
      (rest : List (Nat × ChatSession)),
      (((t0, c0) :: rest).map (fun p => p.2.id)).Nodup →
      rest.length = cfg.maxChatHistory →
      (saveAll cfg ((t0, c0) :: rest) Store.empty).index.length
          = cfg.maxChatHistory
      ∧ (∀ id ∈ (saveAll cfg ((t0, c0) :: rest) Store.empty).index,
          ∃ s, (getChat id (saveAll cfg ((t0, c0) :: rest) Store.empty)).1
            = some s)
      ∧ (∀ p ∈ rest,
          p.2.id ∈ (saveAll cfg ((t0, c0) :: rest) Store.empty).index)
      ∧ getChat c0.id (saveAll cfg ((t0, c0) :: rest) Store.empty)
          = (none, saveAll cfg ((t0, c0) :: rest) Store.empty)
      ∧ (saveAll cfg ((t0, c0) :: rest) Store.empty).records c0.id = none
      ∧ c0.id ∉ (saveAll cfg ((t0, c0) :: rest) Store.empty).index := by
  intro cfg t0 c0 rest hnd hlen
  rcases Nat.eq_zero_or_pos cfg.maxChatHistory with hmax0 | hmaxpos
  · -- cap 0: the single save immediately evicts itself
    have hrest : rest = [] := List.length_eq_zero.mp (by omega)
    subst hrest
    have hstF : saveAll cfg [(t0, c0)] Store.empty
        = saveChat cfg t0 c0 Store.empty := by
      simp [saveAll]
    have hidxF : (saveAll cfg [(t0, c0)] Store.empty).index = [] := by
      rw [hstF, saveChat_index, hmax0]
      rfl
    have hrecF : ∀ k, (saveAll cfg [(t0, c0)] Store.empty).records k = none := by
      intro k
      rw [hstF, saveChat_records, hmax0]
      by_cases hk : k = c0.id
      · simp [Store.empty, hk]
      · simp [Store.empty, hk]
    refine ⟨by rw [hidxF, hmax0]; rfl, ?_, by simp, ?_, hrecF c0.id, ?_⟩
    · intro id hid
      rw [hidxF] at hid
      exact absurd hid (List.not_mem_nil _)
    · exact getChat_of_absent (hrecF c0.id)
    · rw [hidxF]
      exact List.not_mem_nil _
  · -- positive cap: the last save evicts exactly the first-saved id
    have hrne : rest ≠ [] := by
      intro h
      rw [h] at hlen
      simp at hlen
      omega
    have hrest : rest.dropLast ++ [rest.getLast hrne] = rest :=
      List.dropLast_append_getLast hrne
    have hmidlen : rest.dropLast.length = cfg.maxChatHistory - 1 := by
      rw [List.length_dropLast, hlen]
    -- split the final (evicting) save off the sequence
    have hsplit : saveAll cfg ((t0, c0) :: rest) Store.empty
        = saveChat cfg (rest.getLast hrne).1 (rest.getLast hrne).2
            (saveAll cfg ((t0, c0) :: rest.dropLast) Store.empty) := by
      conv_lhs => rw [← hrest]
      rw [show (t0, c0) :: (rest.dropLast ++ [rest.getLast hrne])
          = ((t0, c0) :: rest.dropLast) ++ [rest.getLast hrne] from rfl]
      exact saveAll_append_single cfg _ _ _
    -- uniqueness facts
    have hmap : ((t0, c0) :: rest).map (fun p => p.2.id)
        = c0.id :: (rest.dropLast.map (fun p => p.2.id)
            ++ [(rest.getLast hrne).2.id]) := by
      conv_lhs => rw [← hrest]
      simp
    rw [hmap] at hnd
    have hc0 : c0.id ∉ rest.dropLast.map (fun p => p.2.id)
        ++ [(rest.getLast hrne).2.id] := (List.nodup_cons.mp hnd).1
    have htail : (rest.dropLast.map (fun p => p.2.id)
        ++ [(rest.getLast hrne).2.id]).Nodup := (List.nodup_cons.mp hnd).2
    have hc0mid : c0.id ∉ rest.dropLast.map (fun p => p.2.id) :=
      fun h => hc0 (List.mem_append_left _ h)
    have hc0cl : c0.id ≠ (rest.getLast hrne).2.id := by
      intro h
      exact hc0 (List.mem_append_right _ (by rw [h]; exact List.mem_singleton_self _))
    have hclmid : (rest.getLast hrne).2.id ∉ rest.dropLast.map (fun p => p.2.id) := by
      intro h
      exact (List.nodup_append.mp htail).2.2 h (List.mem_singleton_self _)
    have hmidnd : (rest.dropLast.map (fun p => p.2.id)).Nodup :=
      (List.nodup_append.mp htail).1
    -- the first maxChatHistory saves build the index without eviction
    have SA := saveAll_fresh cfg ((t0, c0) :: rest.dropLast) Store.empty
      (by
        rw [List.map_cons]
        exact List.nodup_cons.mpr ⟨hc0mid, hmidnd⟩)
      (fun p _ => List.not_mem_nil _)
      (by
        show Store.empty.index.length + ((t0, c0) :: rest.dropLast).length
          ≤ cfg.maxChatHistory
        simp only [Store.empty, List.length_cons, List.length_nil, hmidlen]
        omega)
    have hidx1 : (saveAll cfg ((t0, c0) :: rest.dropLast) Store.empty).index
        = (rest.dropLast.map (fun p => p.2.id)).reverse ++ [c0.id] := by
      rw [SA.1]
      simp [Store.empty]
    have hfreshcl : (rest.getLast hrne).2.id
        ∉ (saveAll cfg ((t0, c0) :: rest.dropLast) Store.empty).index := by
      rw [hidx1]
      intro h
      rcases List.mem_append.mp h with h1 | h2
      · exact hclmid (List.mem_reverse.mp h1)
      · exact hc0cl (List.mem_singleton.mp h2).symm
    have hl : ((rest.getLast hrne).2.id
        :: (rest.dropLast.map (fun p => p.2.id)).reverse).length
        = cfg.maxChatHistory := by
      simp [hmidlen]
      omega
    have hidxF : (saveAll cfg ((t0, c0) :: rest) Store.empty).index
        = (rest.getLast hrne).2.id
            :: (rest.dropLast.map (fun p => p.2.id)).reverse := by
      rw [hsplit, saveChat_index, List.erase_of_not_mem hfreshcl, hidx1,
        ← List.cons_append, ← hl, List.take_left]
    have hrecF : ∀ k, (saveAll cfg ((t0, c0) :: rest) Store.empty).records k
        = if k = c0.id then none
          else if k = (rest.getLast hrne).2.id then
            some (RawRecord.valid
              (updatedChat (rest.getLast hrne).1 (rest.getLast hrne).2))
          else (saveAll cfg ((t0, c0) :: rest.dropLast) Store.empty).records k := by
      intro k
      rw [hsplit, saveChat_records, List.erase_of_not_mem hfreshcl, hidx1,
        ← List.cons_append]
      rw [show (((rest.getLast hrne).2.id
            :: (rest.dropLast.map (fun p => p.2.id)).reverse)
            ++ [c0.id]).drop cfg.maxChatHistory = [c0.id] from by
          rw [← hl]; exact List.drop_left _ _]
      simp [List.mem_singleton]
    refine ⟨?_, ?_, ?_, ?_, ?_, ?_⟩
    · rw [hidxF]
      simp [hmidlen]
      omega
    · intro id hid
      rw [hidxF] at hid
      rcases List.mem_cons.mp hid with hcl | hmid
    -- id is the last-saved session
      · subst hcl
        refine ⟨updatedChat (rest.getLast hrne).1 (rest.getLast hrne).2, ?_⟩
        have := hrecF (rest.getLast hrne).2.id
        rw [if_neg (fun h => hc0cl h.symm), if_pos rfl] at this
        rw [getChat_of_valid this]
      · have hmid' := List.mem_reverse.mp hmid
        obtain ⟨p, hp, hpid⟩ := List.mem_map.mp hmid'
        refine ⟨updatedChat p.1 p.2, ?_⟩
        have hidc0 : id ≠ c0.id := by
          intro h
          exact hc0mid (h ▸ hmid')
        have hidcl : id ≠ (rest.getLast hrne).2.id := by
          intro h
          exact hclmid (h ▸ hmid')
        have hrec := hrecF id
        rw [if_neg hidc0, if_neg hidcl] at hrec
        have hst1 := SA.2.1 p (List.mem_cons_of_mem _ hp)
        rw [hpid] at hst1
        rw [hst1] at hrec
        rw [getChat_of_valid hrec]
    · intro p hp
      rw [hidxF]
      conv at hp => rw [← hrest]
      rcases List.mem_append.mp hp with h1 | h2
      · exact List.mem_cons_of_mem _
          (List.mem_reverse.mpr (List.mem_map_of_mem _ h1))
      · rw [List.mem_singleton.mp h2]
        exact List.mem_cons_self _ _
    · exact getChat_of_absent (by rw [hrecF c0.id, if_pos rfl])
    · rw [hrecF c0.id, if_pos rfl]
    · rw [hidxF]
      intro h
      rcases List.mem_cons.mp h with h1 | h2
      · exact hc0cl h1
      · exact hc0mid (List.mem_reverse.mp h2)

/-- Witness for C4: a cap of 1 with two distinct saved sessions. -/
theorem c4_eviction_at_cap_witness :
    ((saveAll { DEFAULT_CONFIG with maxChatHistory := 1 }
        [(1, sessionA), (2, sessionB)] Store.empty).index.length = 1
    ∧ (∀ id ∈ (saveAll { DEFAULT_CONFIG with maxChatHistory := 1 }
          [(1, sessionA), (2, sessionB)] Store.empty).index,
        ∃ s, (getChat id (saveAll { DEFAULT_CONFIG with maxChatHistory := 1 }
          [(1, sessionA), (2, sessionB)] Store.empty)).1 = some s)
    ∧ (∀ p ∈ [(2, sessionB)],
        p.2.id ∈ (saveAll { DEFAULT_CONFIG with maxChatHistory := 1 }
          [(1, sessionA), (2, sessionB)] Store.empty).index)
    ∧ getChat sessionA.id (saveAll { DEFAULT_CONFIG with maxChatHistory := 1 }
          [(1, sessionA), (2, sessionB)] Store.empty)
        = (none, saveAll { DEFAULT_CONFIG with maxChatHistory := 1 }
            [(1, sessionA), (2, sessionB)] Store.empty)
    ∧ (saveAll { DEFAULT_CONFIG with maxChatHistory := 1 }
        [(1, sessionA), (2, sessionB)] Store.empty).records sessionA.id = none
    ∧ sessionA.id ∉ (saveAll { DEFAULT_CONFIG with maxChatHistory := 1 }
        [(1, sessionA), (2, sessionB)] Store.empty).index) :=
  c4_eviction_at_cap { DEFAULT_CONFIG with maxChatHistory := 1 } 1 sessionA
    [(2, sessionB)] (by decide) (by decide)

/-- C6: a blank (empty or whitespace-only) query returns the empty list;
otherwise `searchChats` returns exactly the sessions among the up-to-
`maxChatHistory` most recent (the `getChats(maxChatHistory)` result) whose
lowercased title or lowercased text of some message contains the
lowercased query as a substring. -/
theorem c6_search_linear_scan :
    ∀ (cfg : ChatConfig) (query : String) (st : Store),
      (jsTrim query = "" → searchChats cfg query st = ([], st))
      ∧ (jsTrim query ≠ "" → ∀ s,
          s ∈ (searchChats cfg query st).1 ↔
            s ∈ (getChats cfg (some cfg.maxChatHistory) st).1
            ∧ (strIncludes (jsToLower s.title) (jsToLower query) = true
               ∨ ∃ m ∈ s.messages,
                   strIncludes (jsToLower m.text) (jsToLower query) = true)) := by
  intro cfg query st
  constructor
  · intro hq
    simp [searchChats, hq]
  · intro hq s
    simp [searchChats, hq, List.mem_filter, chatMatches, List.any_eq_true,
      Bool.or_eq_true, and_assoc]

/-- Witness for C6: searching "sleep" over a store whose only session
mentions sleep in a message finds exactly that session. -/
theorem c6_search_linear_scan_witness :
    sessionA ∈ (searchChats DEFAULT_CONFIG ("sleep") oneChatStore).1 :=
  ((c6_search_linear_scan DEFAULT_CONFIG ("sleep") oneChatStore).2
    (by decide) sessionA).mpr (by decide)

/-- A limit of 0 is falsy in JS (`limit || configManager.maxChatsInDrawer`
at `src/ui/storage/ChatStorage.ts:162`), so `getChats(0)` uses the default
drawer limit and can return MORE than 0 sessions, refuting C7 as stated
for the non-negative limit 0. -/
theorem c7_zero_limit_counterexample :
    ¬ ((getChats DEFAULT_CONFIG (some 0) oneChatStore).1.length ≤ 0) := by
  decide

/-- C7 (amended): for every POSITIVE limit, `getChats(limit)` returns at
most `limit` sessions; a limit of 0 behaves like an omitted argument, and
an omitted argument defaults to `maxChatsInDrawer`; on a well-keyed store
every returned session comes from an id in the front `limitToUse` segment
of the index with its record stored valid, and the returned ids form a
subsequence of that segment (failed loads are skipped, not fatal). -/
theorem c7_list_respects_limit :
    (∀ (cfg : ChatConfig) (limit : Nat) (st : Store), 0 < limit →
      (getChats cfg (some limit) st).1.length ≤ limit)
    ∧ (∀ (cfg : ChatConfig) (st : Store),
        (getChats cfg none st).1.length ≤ cfg.maxChatsInDrawer)
    ∧ (∀ (cfg : ChatConfig) (limit : Option Nat) (st : Store) (s : ChatSession),
        WellKeyed st → s ∈ (getChats cfg limit st).1 →
          s.id ∈ st.index.take (limitToUse cfg limit)
          ∧ st.records s.id = some (RawRecord.valid s))
    ∧ (∀ (cfg : ChatConfig) (limit : Option Nat) (st : Store),
        WellKeyed st →
          ((getChats cfg limit st).1.map ChatSession.id).Sublist
            (st.index.take (limitToUse cfg limit))) := by
  refine ⟨?_, ?_, ?_, ?_⟩
  · intro cfg limit st hpos
    have hloop := getChatsLoop_length_le
      (st.index.take (limitToUse cfg (some limit))) st
    have hlim : limitToUse cfg (some limit) = limit := by
      simp [limitToUse, Nat.pos_iff_ne_zero.mp hpos]
    calc (getChats cfg (some limit) st).1.length
        ≤ (st.index.take (limitToUse cfg (some limit))).length := hloop
      _ ≤ limitToUse cfg (some limit) := by
          rw [List.length_take]; exact min_le_left _ _
      _ = limit := hlim
  · intro cfg st
    have hloop := getChatsLoop_length_le
      (st.index.take (limitToUse cfg none)) st
    calc (getChats cfg none st).1.length
        ≤ (st.index.take (limitToUse cfg none)).length := hloop
      _ ≤ limitToUse cfg none := by
          rw [List.length_take]; exact min_le_left _ _
      _ = cfg.maxChatsInDrawer := rfl
  · intro cfg limit st s hwk hs
    simp only [getChats] at hs
    exact getChatsLoop_sound hwk hs
  · intro cfg limit st hwk
    exact getChatsLoop_ids_sublist hwk

/-- Witness for C7 (amended) at the concrete one-chat store and limit 1. -/
theorem c7_list_respects_limit_witness :
    (getChats DEFAULT_CONFIG (some 1) oneChatStore).1.length ≤ 1 :=
  c7_list_respects_limit.1 DEFAULT_CONFIG 1 oneChatStore (by decide)

/-- A message used by the C8 counterexample and witness: a user message
whose cleaned text ("Hi") is shorter than `MIN_TITLE_LENGTH`. -/
def hiMessage : ChatMessage :=
  { id := "m1", role := Role.user, text := "hi", timestamp := 0 }

/-- A concrete assistant reply used by the C8 witness. -/
def assistantReply : ChatMessage :=
  { id := "m2", role := Role.assistant, text := "hello there", timestamp := 1 }

/-- The final `return title || "New Chat"` guard never yields the empty
string. -/
theorem ite_empty_guard_ne (x : String) :
    (if x = "" then "New Chat" else x) ≠ "" := by
  by_cases hx : x = ""
  · rw [if_pos hx]; decide
  · rw [if_neg hx]; exact hx

/-- C8, as stated, is false: `generateTitle` is NOT a pure function of its
`messages` argument.  When the cleaned first user message is shorter than
`MIN_TITLE_LENGTH` and there is at most one message, the fallback embeds
the current wall-clock time (`new Date().toLocaleTimeString` at
`src/ui/components/chat/ChatTitleGenerator.tsx:83`), so two calls at
different times return different strings. -/
theorem c8_time_dependence_counterexample :
    generateTitle [hiMessage] "10:00" ≠ generateTitle [hiMessage] "11:00" := by
  decide

/-- C8 (amended): `generateTitle` always returns a non-empty string (and,
being total, never raises); with no user message it returns `"New Chat"`;
and it depends only on `messages` — not on the clock — except in the
single-message fallback case (`messages.length = 1` is the only length at
which the time-based fallback `"Chat at HH:MM"` is reachable). -/
theorem c8_title_generation :
    ∀ (messages : List ChatMessage) (t t' : String),
      generateTitle messages t ≠ ""
      ∧ ((∀ m ∈ messages, m.role = Role.assistant) →
          generateTitle messages t = "New Chat")
      ∧ (messages.length ≠ 1 →
          generateTitle messages t = generateTitle messages t') := by
  intro messages t t'
  refine ⟨?_, ?_, ?_⟩
  · cases hf : messages.find? (fun msg => decide (msg.role = Role.user)) with
    | none => simp [generateTitle, hf]
    | some fu =>
      simp only [generateTitle, hf]
      exact ite_empty_guard_ne _
  · intro h
    have hf : messages.find? (fun msg => decide (msg.role = Role.user)) = none :=
      List.find?_eq_none.mpr (fun m hm => by simp [h m hm])
    simp [generateTitle, hf]
  · intro hlen
    cases hf : messages.find? (fun msg => decide (msg.role = Role.user)) with
    | none => simp [generateTitle, hf]
    | some fu =>
      have hmem := List.mem_of_find?_eq_some hf
      have hpos : 0 < messages.length :=
        List.length_pos.mpr (List.ne_nil_of_mem hmem)
      have hfb : generateFallbackTitle messages t
          = generateFallbackTitle messages t' := by
        simp only [generateFallbackTitle]
        rw [if_neg (by omega : ¬ messages.length ≤ 1),
          if_neg (by omega : ¬ messages.length ≤ 1)]
      simp only [generateTitle, hf]
      by_cases hshort : (truncateTitle (cleanTitle (jsTrim fu.text))).length
          < MIN_TITLE_LENGTH
      · rw [if_pos hshort, if_pos hshort, hfb]
      · rw [if_neg hshort, if_neg hshort]

/-- Witness for C8 (amended): a two-message conversation gets the same
(count-based, time-independent) title at two different clock readings, and
an assistant-only conversation titles as "New Chat". -/
theorem c8_title_generation_witness :
    generateTitle [hiMessage, assistantReply] "10:00"
        = generateTitle [hiMessage, assistantReply] "11:00"
    ∧ generateTitle [assistantReply] "10:00" = "New Chat" :=
  ⟨(c8_title_generation [hiMessage, assistantReply] "10:00" "11:00").2.2
      (by decide),
    (c8_title_generation [assistantReply] "10:00" "11:00").2.1 (by decide)⟩

/-- C9: `ConfigManager.updateConfig` merges first and persists second
(`src/ui/storage/ChatStorage.ts:455-464`): when the persistence write
fails the method raises, the disk value is left alone — yet a subsequent
`getConfig` already sees the merged update; and the in-memory merge
happens whether or not the write succeeds. -/
theorem c9_update_nonatomic :
    ∀ (u : PartialConfig) (s : ConfigState),
      (updateConfig u false s).2 = false
      ∧ getConfig (updateConfig u false s).1 = mergeConfig (getConfig s) u
      ∧ (updateConfig u false s).1.disk = s.disk
      ∧ ∀ ok, getConfig (updateConfig u ok s).1 = mergeConfig (getConfig s) u := by
  intro u s
  refine ⟨rfl, rfl, rfl, ?_⟩
  intro ok
  cases ok <;> rfl

end HealthCopilot
